import Mathlib

/-
Verification development for the vessel synthesizer growth engine
(file src/synthesizer.cpp of the repository, given here as
src/unnamed/part_000, together with src/vessel_synthesis/domain.h).

Shallow embedding conventions.

Positions are triples of rationals.  The C++ code stores positions in
32-bit floats; every construct the claims below depend on is either purely
structural or an exact comparison of distances, so the rational model is
faithful for those constructs.  Distance comparisons coming from
euclidean_range queries are embedded by comparing squared distances, which
is order-equivalent to comparing real euclidean distances against a
non-negative radius.

The generic infrastructure (octree spatial index, forest and tree
containers) is declared in headers that are not part of the given sources;
those parts are modelled from the spec (sections 3, 4.1 and 4.2), as
documented on each definition.  Trees are modelled as append-only arenas
(lists of nodes indexed by stable identifiers), which is the re-architecture
the spec itself prescribes for the node back-pointers; a node handle is a
pair of a tree index and a node identifier.  Spatial indices are modelled
as insertion-ordered lists of entries keyed by the position given at
insertion time (node positions never change after creation, so this agrees
with the octree contract).

External float mathematics (glm normalize and rotate, acos based angles,
std::pow based Murray formulas, the Eigen line fit) is abstracted as a
record of oracle functions called Geom: the control flow of the engine is
embedded exactly, and structural claims are proved for every possible
oracle.  The law kernel functions that claims speak about directly
(law::murray_angles) are additionally embedded over the real numbers.
-/

namespace VS

/-- Three dimensional point, the glm::vec3 of the source, with exact
rational coordinates. -/
structure Vec3 where
  x : ℚ
  y : ℚ
  z : ℚ
deriving DecidableEq, Repr

/-- Componentwise vector addition. -/
def vadd (a b : Vec3) : Vec3 := ⟨a.x + b.x, a.y + b.y, a.z + b.z⟩

/-- Componentwise vector subtraction. -/
def vsub (a b : Vec3) : Vec3 := ⟨a.x - b.x, a.y - b.y, a.z - b.z⟩

/-- Scalar multiplication. -/
def smul (q : ℚ) (a : Vec3) : Vec3 := ⟨q * a.x, q * a.y, q * a.z⟩

/-- Cross product (glm::cross), exact over the rationals. -/
def cross (a b : Vec3) : Vec3 :=
  ⟨a.y * b.z - a.z * b.y, a.z * b.x - a.x * b.z, a.x * b.y - a.y * b.x⟩

/-- Squared euclidean distance between two points. -/
def dist2 (a b : Vec3) : ℚ :=
  (a.x - b.x) ^ 2 + (a.y - b.y) ^ 2 + (a.z - b.z) ^ 2

/-- Test whether point b lies within euclidean distance rad of point a.
For rad at least 0 this is exactly the real condition sqrt (dist2 a b) is
at most rad; a negative radius matches nothing. -/
def within_dist (rad : ℚ) (a b : Vec3) : Bool :=
  decide (0 ≤ rad) && decide (dist2 a b ≤ rad * rad)

/-- Modelled from the spec (section 3, node attributes): a tree node with
position, radius, optional parent identifier and list of child
identifiers.  The m_tree back pointer of the source is replaced by
carrying the owning tree index inside node handles, which is the
re-architecture the spec prescribes (section 9). -/
structure Node where
  m_pos : Vec3
  m_radius : ℚ
  m_parent : Option Nat
  m_children : List Nat
deriving DecidableEq, Repr

/-- Modelled from the spec (section 4.2): a tree is an arena of nodes;
node identifiers are indices into the arena and are stable because nodes
are only ever appended. -/
abbrev Tree := List Node

/-- Role predicate: a root has no parent. -/
def Node.is_root (n : Node) : Bool := n.m_parent.isNone

/-- Role predicate: a leaf has no children. -/
def Node.is_leaf (n : Node) : Bool := n.m_children.isEmpty

/-- Role predicate: an intermediate node has exactly one child. -/
def Node.is_inter (n : Node) : Bool := n.m_children.length == 1

/-- Role predicate: a joint has exactly two children. -/
def Node.is_joint (n : Node) : Bool := n.m_children.length == 2

/-- Modelled from the spec (section 4.2): get_node by identifier. -/
def Tree.get_node (t : Tree) (i : Nat) : Option Node := t[i]?

/-- Modelled from the spec (section 4.2): create_root makes a fresh one
node tree whose root carries the given position and radius. -/
def Tree.create_root (pos : Vec3) (radius : ℚ) : Tree :=
  [⟨pos, radius, none, []⟩]

/-- Modelled from the spec (section 4.2): create_node appends a new child
of parent_id; it fails (models the loud failure demanded by section 7)
when the parent does not exist or already has two children.  On success it
returns the new tree together with the identifier of the new node. -/
def Tree.create_node (t : Tree) (parent_id : Nat) (pos : Vec3) (radius : ℚ) :
    Option (Tree × Nat) :=
  match t[parent_id]? with
  | none => none
  | some p =>
    if 2 ≤ p.m_children.length then none
    else
      some (t.set parent_id { p with m_children := p.m_children ++ [t.length] }
              ++ [⟨pos, radius, some parent_id, []⟩], t.length)

/-- Replace the node stored at identifier i by g applied to it; identity
when i is out of range. -/
def Tree.update_node (t : Tree) (i : Nat) (g : Node → Node) : Tree :=
  match t[i]? with
  | none => t
  | some n => t.set i (g n)

/-- Modelled from the spec (section 4.2): to_root applies fn to the node
start_id, then to its parent, and so on up to the root inclusive.  The
fuel argument bounds the length of the parent chain; the engine always
calls it with fuel equal to the arena size, which suffices because parent
identifiers strictly decrease towards the root in arena order. -/
def Tree.to_root (fn : Tree → Node → Node) : Nat → Tree → Nat → Tree
  | 0, t, i => t.update_node i (fn t)
  | fuel + 1, t, i =>
    let t2 := t.update_node i (fn t)
    match t2[i]? with
    | none => t2
    | some n =>
      match n.m_parent with
      | none => t2
      | some p => Tree.to_root fn fuel t2 p

/-- Modelled from the spec (section 3): a forest is an ordered collection
of trees. -/
abbrev Forest := List Tree

/-- Handle to a node: owning tree index paired with the node identifier.
This replaces the raw node pointers of the source. -/
abbrev NodeRef := Nat × Nat

/-- Dereference a node handle in a forest. -/
def Forest.get_node? (f : Forest) (r : NodeRef) : Option Node :=
  match f[r.1]? with
  | none => none
  | some t => t[r.2]?

/-- Modelled from the spec (section 4.1): the node spatial index is a
collection of handles keyed by the position given at insertion time.
euclidean_range appends all stored values within the given euclidean
distance of the center, in traversal order. -/
abbrev NodeIndex := List (Vec3 × NodeRef)

/-- Modelled from the spec (section 4.1): range query on the node index,
returning the handles stored within euclidean distance rad of center. -/
def node_range (idx : NodeIndex) (center : Vec3) (rad : ℚ) : List NodeRef :=
  (idx.filter (fun e => within_dist rad e.1 center)).map (fun e => e.2)

/-- Modelled from the spec (sections 3 and 4.1): the attraction index
stores attraction points by value; an attraction point is its position. -/
abbrev AttrIndex := List Vec3

/-- Modelled from the spec (section 4.1): range query on the attraction
index. -/
def attr_range (idx : AttrIndex) (center : Vec3) (rad : ℚ) : List Vec3 :=
  idx.filter (fun p => within_dist rad p center)

/-- Tag of the growth function variant (grow_func::m_type in the source). -/
inductive GrowType where
  | none
  | linear
  | exponential
deriving DecidableEq, Repr

/-- Growth function of the settings: a tag plus an always-present value,
exactly as in the source (grow_func with m_type and m_value). -/
structure GrowFunc where
  m_type : GrowType
  m_value : ℚ
deriving DecidableEq, Repr

/-- Per-system immutable settings (spec section 6 and the fields the
source reads). -/
structure SettingsSystem where
  m_birth_attr : ℚ
  m_birth_node : ℚ
  m_influence_attr : ℚ
  m_kill_attr : ℚ
  m_growth_distance : ℚ
  m_term_radius : ℚ
  m_percept_vol : ℚ
  m_bif_thresh : ℚ
  m_bif_index : ℚ
  m_parent_inertia : ℚ
  m_only_leaf_development : Bool
  m_grow_func : GrowFunc
deriving DecidableEq, Repr

/-- Top level settings: one record per system plus the step and sample
counts. -/
structure Settings where
  sys_a : SettingsSystem
  sys_v : SettingsSystem
  m_steps : Nat
  m_sample_count : Nat
deriving DecidableEq, Repr

/-- Per-system mutable runtime parameters (synthesizer::parameter::system
in the source). -/
structure ParameterSystem where
  m_scaling : ℚ
  m_birth_attr : ℚ
  m_birth_node : ℚ
  m_influence_attr : ℚ
  m_kill_attr : ℚ
  m_growth_distance : ℚ
deriving DecidableEq, Repr

/-- Runtime parameters: one record per system plus the current step
counter. -/
structure Parameter where
  sys_a : ParameterSystem
  sys_v : ParameterSystem
  m_curr_step : Nat
deriving DecidableEq, Repr

/-- The two coupled systems. -/
inductive Sys where
  | arterial
  | venous
deriving DecidableEq, Repr

/-- Per-system data of the synthesizer: forest, node index, attraction
index and the list of satisfied (killed) attraction positions. -/
structure SystemData where
  m_forest : Forest
  m_node_search : NodeIndex
  m_attr_search : AttrIndex
  m_killed_attr : List Vec3
deriving DecidableEq

/-- Whole synthesizer state. -/
structure SynthState where
  m_sys_a : SystemData
  m_sys_v : SystemData
  m_settings : Settings
  m_params : Parameter
  m_is_running : Bool
deriving DecidableEq

/-- Settings of one system. -/
def Settings.get_sys (s : Settings) : Sys → SettingsSystem
  | Sys.arterial => s.sys_a
  | Sys.venous => s.sys_v

/-- Runtime parameters of one system. -/
def Parameter.get_sys (p : Parameter) : Sys → ParameterSystem
  | Sys.arterial => p.sys_a
  | Sys.venous => p.sys_v

/-- Data of one system (synthesizer::get_system_data). -/
def SynthState.get_sys_data (st : SynthState) : Sys → SystemData
  | Sys.arterial => st.m_sys_a
  | Sys.venous => st.m_sys_v

/-- Replace the data of one system. -/
def SynthState.set_sys_data (st : SynthState) (sys : Sys) (d : SystemData) :
    SynthState :=
  match sys with
  | Sys.arterial => { st with m_sys_a := d }
  | Sys.venous => { st with m_sys_v := d }

/-- Embedding of synthesizer::system_data::clear: clears the forest, the
node index, the attraction index and the killed list. -/
def SystemData.clear (_d : SystemData) : SystemData := ⟨[], [], [], []⟩

/-- Embedding of the breadth_first based node index rebuild of
synthesizer::set_forest: every node of every tree is inserted keyed by its
position.  Modelled from the spec (section 4.2): breadth_first visits
every node once, parents before children; arena order is such an order for
trees built by the engine, and only the set of inserted entries matters to
the claims below. -/
def rebuild_index (f : Forest) : NodeIndex :=
  (List.range f.length).flatMap (fun ti =>
    match f[ti]? with
    | none => []
    | some t => (List.range t.length).flatMap (fun ni =>
        match t[ni]? with
        | none => []
        | some n => [(n.m_pos, (ti, ni))]))

/-- Embedding of synthesizer::set_forest with a forest value: the system
is cleared first (which also empties the attraction index and the killed
list), then the forest is stored and the node index rebuilt. -/
def set_forest (d : SystemData) (other : Forest) : SystemData :=
  let d1 := d.clear
  { d1 with m_forest := other, m_node_search := rebuild_index other }

/-- Embedding of synthesizer::get_forest. -/
def get_forest (d : SystemData) : Forest := d.m_forest

/-- Embedding of the exact call set_forest(sys, get_forest(sys)) of the
source.  get_forest returns a const reference into m_systems, and
set_forest begins with sys_data.clear(), which empties the referenced
forest before the line sys_data.m_forest = other copies it; the argument
therefore denotes the empty forest at the moment it is read. -/
def set_forest_self (d : SystemData) : SystemData :=
  let d1 := d.clear
  let other := d1.m_forest
  { d1 with m_forest := other, m_node_search := rebuild_index other }

/-- Embedding of synthesizer::create_root at the state level: a fresh one
node tree is appended to the forest of the chosen system, the root carries
the term_radius of that system settings, and the root is inserted into the
node index of that system. -/
def create_root (st : SynthState) (sys : Sys) (pos : Vec3) : SynthState :=
  let d := st.get_sys_data sys
  let new_tree := Tree.create_root pos (st.m_settings.get_sys sys).m_term_radius
  st.set_sys_data sys
    { d with
      m_forest := d.m_forest ++ [new_tree]
      m_node_search := d.m_node_search ++ [(pos, (d.m_forest.length, 0))] }

/-- Embedding of synthesizer::create_attr: unconditional insertion of an
attraction point at the given position. -/
def create_attr (d : SystemData) (pos : Vec3) : SystemData :=
  { d with m_attr_search := d.m_attr_search ++ [pos] }

/-- Embedding of synthesizer::try_attr on the data of one system with its
runtime parameters: reject when a node lies within birth_node of the
candidate, else reject when an attraction lies within birth_attr, else
insert. -/
def try_attr_data (params : ParameterSystem) (d : SystemData) (pos : Vec3) :
    SystemData :=
  if (node_range d.m_node_search pos params.m_birth_node).isEmpty = false then d
  else if (attr_range d.m_attr_search pos params.m_birth_attr).isEmpty = false then d
  else { d with m_attr_search := d.m_attr_search ++ [pos] }

/-- Embedding of synthesizer::try_attr at the state level, reading the
runtime parameters of the chosen system. -/
def try_attr (st : SynthState) (sys : Sys) (pos : Vec3) : SynthState :=
  st.set_sys_data sys (try_attr_data (st.m_params.get_sys sys) (st.get_sys_data sys) pos)

/-- Embedding of synthesizer::combine_systems: nothing happens while the
venous forest is empty; otherwise every satisfied arterial position is
inserted unconditionally (create_attr) into the venous attraction index
and the arterial satisfied list is cleared. -/
def combine_systems (st : SynthState) : SynthState :=
  if st.m_sys_v.m_forest = [] then st
  else
    let ven2 := st.m_sys_a.m_killed_attr.foldl (fun d pos => create_attr d pos) st.m_sys_v
    { st with
      m_sys_v := ven2
      m_sys_a := { st.m_sys_a with m_killed_attr := [] } }

/-- Embedding of synthesizer::init_runtime_params: step counter to zero,
scaling to one, every runtime distance parameter to its settings value,
for both systems. -/
def init_param_sys (s : SettingsSystem) : ParameterSystem :=
  ⟨1, s.m_birth_attr, s.m_birth_node, s.m_influence_attr, s.m_kill_attr,
    s.m_growth_distance⟩

/-- Embedding of synthesizer::init_runtime_params at the state level. -/
def init_runtime_params (st : SynthState) : SynthState :=
  { st with m_params := ⟨init_param_sys st.m_settings.sys_a,
                         init_param_sys st.m_settings.sys_v, 0⟩ }

/-- Embedding of the scaling update of synthesizer::domain_growth. -/
def grow_scaling (gf : GrowFunc) (s : ℚ) : ℚ :=
  match gf.m_type with
  | GrowType.none => s
  | GrowType.linear => s + gf.m_value
  | GrowType.exponential => s + s * gf.m_value

/-- Embedding of synthesizer::domain_growth on the parameters of one
system: update the scaling by the growth function and set every runtime
distance parameter to its settings value times the inverse scale. -/
def domain_growth_p (sett : SettingsSystem) (p : ParameterSystem) : ParameterSystem :=
  let s2 := grow_scaling sett.m_grow_func p.m_scaling
  let inverseScale := 1 / s2
  ⟨s2, sett.m_birth_attr * inverseScale, sett.m_birth_node * inverseScale,
    sett.m_influence_attr * inverseScale, sett.m_kill_attr * inverseScale,
    sett.m_growth_distance * inverseScale⟩

/-- Runtime parameters of one system after init_runtime_params followed by
n calls of domain_growth for that system, the shape in which domain_growth
is reached from the main loop. -/
def dg_iter (sett : SettingsSystem) : Nat → ParameterSystem
  | 0 => init_param_sys sett
  | n + 1 => domain_growth_p sett (dg_iter sett n)

/-- Embedding of synthesizer::domain_growth at the state level. -/
def domain_growth (st : SynthState) (sys : Sys) : SynthState :=
  let p2 := domain_growth_p (st.m_settings.get_sys sys) (st.m_params.get_sys sys)
  match sys with
  | Sys.arterial => { st with m_params := { st.m_params with sys_a := p2 } }
  | Sys.venous => { st with m_params := { st.m_params with sys_v := p2 } }

/-- Abstraction of the external float mathematics used by the engine: glm
normalize, glm rotate (taking the angle in degrees, the source converts
degrees to radians at every call site), the degree angle
degrees(acos(dot(a, b))) between two already normalized vectors,
law::murray_radius, law::murray_angles as used with rational data, and the
Eigen based law::bets_line_fit returning centroid and axis.  Structural
claims are proved for every interpretation of these oracles. -/
structure Geom where
  normalize : Vec3 → Vec3
  rotate_deg : Vec3 → ℚ → Vec3 → Vec3
  angle_deg : Vec3 → Vec3 → ℚ
  murray_radius : ℚ → ℚ → ℚ → ℚ
  murray_angles : ℚ → ℚ → ℚ → ℚ × ℚ
  line_fit : List Vec3 → Vec3 × Vec3

/-- Trivial interpretation of the geometry oracle, used to evaluate the
engine on concrete inputs. -/
def triv_geom : Geom :=
  ⟨fun v => v, fun v _ _ => v, fun _ _ => 0, fun _ _ _ => 0,
    fun _ _ _ => (0, 0), fun _ => (⟨0, 0, 0⟩, ⟨0, 0, 0⟩)⟩

/-- Clamp to the interval from minus one to one, the
std::min(std::max(tmp, -1), 1) of law::murray_angles. -/
def clamp1 (x : ℝ) : ℝ := min (max x (-1)) 1

namespace law

/-- Embedding of law::murray_angles over the real numbers: both acos
arguments are clamped to the interval from minus one to one, the left
angle is the negated acos in degrees, the right angle the positive acos in
degrees. -/
noncomputable def murray_angles (r_p r_l r_r : ℝ) : ℝ × ℝ :=
  let tmp1 := clamp1 ((r_p ^ 4 + r_l ^ 4 - r_r ^ 4) / (2 * r_p ^ 2 * r_l ^ 2))
  let angleOne := -(Real.arccos tmp1 * 180 / Real.pi)
  let tmp2 := clamp1 ((r_p ^ 4 - r_l ^ 4 + r_r ^ 4) / (2 * r_p ^ 2 * r_r ^ 2))
  let angleTwo := Real.arccos tmp2 * 180 / Real.pi
  (angleOne, angleTwo)

end law

/-- One candidate of the minimum selection loop of
synthesizer::step_closest: skip unresolved handles and joints, keep the
strictly closest node seen so far (squared distances compare identically
to the float distances of the source); ties keep the first one
encountered. -/
def find_min_step (f : Forest) (p : Vec3) (best : Option (NodeRef × ℚ))
    (r : NodeRef) : Option (NodeRef × ℚ) :=
  match f.get_node? r with
  | none => best
  | some n =>
    if n.is_joint then best
    else
      match best with
      | none => some (r, dist2 p n.m_pos)
      | some (br, bd) =>
        if dist2 p n.m_pos < bd then some (r, dist2 p n.m_pos) else some (br, bd)

/-- Minimum selection loop of synthesizer::step_closest. -/
def find_min (f : Forest) (p : Vec3) (nodes : List NodeRef) : Option NodeRef :=
  (nodes.foldl (find_min_step f p) none).map (fun e => e.1)

/-- Perception volume filters of synthesizer::step_closest.  A root
passes unfiltered.  A non root non intermediate node (a leaf, joints were
skipped by the minimum loop) passes when the angle between parent
direction and attraction direction is at most half the perception volume.
A non root intermediate node passes when that angle deviates from the
ideal Murray angle by at most half the perception volume. -/
def percept_ok (geom : Geom) (sett : SettingsSystem) (t : Tree) (n : Node)
    (p : Vec3) : Bool :=
  match n.m_parent with
  | none => true
  | some pid =>
    match t[pid]? with
    | none => true
    | some par =>
      let d_parent := geom.normalize (vsub n.m_pos par.m_pos)
      let d_attr := geom.normalize (vsub p n.m_pos)
      let angle := geom.angle_deg d_parent d_attr
      if n.is_inter = false then
        decide (angle ≤ sett.m_percept_vol * (1 / 2))
      else
        match n.m_children[0]? with
        | none => true
        | some c =>
          match t[c]? with
          | none => true
          | some child_0 =>
            let parent_radius :=
              geom.murray_radius child_0.m_radius sett.m_term_radius sett.m_bif_index
            let perfect_angle :=
              |(geom.murray_angles parent_radius child_0.m_radius sett.m_term_radius).2|
            decide (|angle - perfect_angle| ≤ sett.m_percept_vol * (1 / 2))

/-- Association map update attr_map[min_node].push_back(p): append to the
list of an existing key, otherwise add a new entry. -/
def push_attr (m : List (NodeRef × List Vec3)) (r : NodeRef) (p : Vec3) :
    List (NodeRef × List Vec3) :=
  match m with
  | [] => [(r, [p])]
  | e :: rest => if e.1 = r then (e.1, e.2 ++ [p]) :: rest else e :: push_attr rest r p

/-- Body of the attraction traversal of synthesizer::step_closest for one
attraction point: query the nodes within influence_attr, pick the closest
non joint node, apply the perception filters, and on success associate the
point with that node. -/
def closest_step (geom : Geom) (sett : SettingsSystem) (params : ParameterSystem)
    (data : SystemData) (attr_map : List (NodeRef × List Vec3)) (p : Vec3) :
    List (NodeRef × List Vec3) :=
  let nodes := node_range data.m_node_search p params.m_influence_attr
  if nodes.isEmpty then attr_map
  else
    match find_min data.m_forest p nodes with
    | none => attr_map
    | some r =>
      match data.m_forest[r.1]?, data.m_forest.get_node? r with
      | some t, some n =>
        if percept_ok geom sett t n p then push_attr attr_map r p else attr_map
      | _, _ => attr_map

/-- Embedding of synthesizer::step_closest: traverse every attraction
point of the system and accumulate the association map. -/
def step_closest (geom : Geom) (sett : SettingsSystem) (params : ParameterSystem)
    (data : SystemData) : List (NodeRef × List Vec3) :=
  data.m_attr_search.foldl (closest_step geom sett params data) []

/-- Per point angles and their squared deviation sum of the bifurcation
detection in synthesizer::step_growth: theta at i is the degree angle
between the parent direction and the normalized direction to attraction
point i; the result is the sum of the squared deviations from the mean,
with no division by the population size, exactly as the source computes
before taking the square root. -/
def sd_sq (geom : Geom) (node : Node) (d_parent : Vec3) (attr_list : List Vec3) : ℚ :=
  let angles := attr_list.map (fun att =>
    geom.angle_deg d_parent (geom.normalize (vsub att node.m_pos)))
  let mean := angles.sum / (angles.length : ℚ)
  ((angles.map (fun a => (a - mean) ^ 2)).sum)

/-- Bifurcation preference test of synthesizer::step_growth for a node
whose parent direction is d_parent: only a leaf with more than one
associated point and a non negative threshold may bifurcate, and it does
when the square root of sd_sq reaches the threshold.  The source compares
sqrt(sd_sq) with the threshold; with the threshold non negative inside
this branch that comparison is equivalent to the exact rational comparison
of sd_sq with the squared threshold used here. -/
def bif_decision (geom : Geom) (sett : SettingsSystem) (node : Node)
    (d_parent : Vec3) (attr_list : List Vec3) : Bool :=
  if node.is_leaf && decide (1 < attr_list.length) && decide (0 ≤ sett.m_bif_thresh) then
    decide (sett.m_bif_thresh ^ 2 ≤ sd_sq geom node d_parent attr_list)
  else false

/-- Bias direction and bifurcation flag block of synthesizer::step_growth
(the body of the branch guarded by the node not being a root).  Returns
the flag together with the blended growth direction; fails when the parent
handle cannot be resolved (impossible for well formed forests). -/
def bias_and_bif (geom : Geom) (sett : SettingsSystem) (t : Tree) (node : Node)
    (dir0 : Vec3) (attr_list : List Vec3) : Option (Bool × Vec3) :=
  match node.m_parent with
  | none => some (false, dir0)
  | some pid =>
    match t[pid]? with
    | none => none
    | some par =>
      let d_parent := geom.normalize (vsub node.m_pos par.m_pos)
      let bifurcation := bif_decision geom sett node d_parent attr_list
      let bias :=
        if node.is_leaf then d_parent
        else if node.is_inter then
          match node.m_children[0]? with
          | none => dir0
          | some c =>
            match t[c]? with
            | none => dir0
            | some child_0 =>
              let parent_radius :=
                geom.murray_radius child_0.m_radius sett.m_term_radius sett.m_bif_index
              let perfect_angle :=
                |(geom.murray_angles parent_radius child_0.m_radius sett.m_term_radius).2|
              let normal := geom.normalize (cross d_parent dir0)
              geom.normalize (geom.rotate_deg d_parent perfect_angle normal)
        else dir0
      some (bifurcation,
        geom.normalize (vadd (smul (1 - sett.m_parent_inertia) dir0)
          (smul sett.m_parent_inertia bias)))

/-- Radius recomputation callback of synthesizer::step_growth: an
intermediate node takes the radius of its sole child, a joint the Murray
radius of its two children, every other node is unchanged. -/
def recalc_radii (geom : Geom) (sett : SettingsSystem) (t : Tree) (n : Node) : Node :=
  if n.is_inter then
    match n.m_children[0]? with
    | none => n
    | some c =>
      match t[c]? with
      | none => n
      | some child_0 => { n with m_radius := child_0.m_radius }
  else if n.is_joint then
    match n.m_children[0]?, n.m_children[1]? with
    | some c0, some c1 =>
      match t[c0]?, t[c1]? with
      | some child_0, some child_1 =>
        { n with m_radius :=
            geom.murray_radius child_0.m_radius child_1.m_radius sett.m_bif_index }
      | _, _ => n
    | _, _ => n
  else n

/-- Bifurcation branch of synthesizer::step_growth: two Murray children
of a leaf, then root-ward radius recomputation and node index insertion. -/
def grow_bif (geom : Geom) (sett : SettingsSystem) (params : ParameterSystem)
    (data : SystemData) (r : NodeRef) (t : Tree) (node : Node)
    (attr_list : List Vec3) : Option SystemData :=
  match node.m_parent with
  | none => none
  | some pid =>
    match t[pid]? with
    | none => none
    | some par =>
      let d_parent := geom.normalize (vsub node.m_pos par.m_pos)
      let radius_l := sett.m_term_radius
      let radius_r := sett.m_term_radius
      let parent_radius := geom.murray_radius radius_l radius_r sett.m_bif_index
      let angle_l := (geom.murray_angles parent_radius radius_l radius_r).1
      let angle_r := (geom.murray_angles parent_radius radius_l radius_r).2
      let line := geom.line_fit attr_list
      let up := cross (geom.normalize (vsub line.1 node.m_pos)) line.2
      let left := geom.normalize (geom.rotate_deg d_parent angle_l up)
      let right := geom.normalize (geom.rotate_deg d_parent angle_r up)
      let pos_l := vadd node.m_pos (smul params.m_growth_distance (geom.normalize left))
      let pos_r := vadd node.m_pos (smul params.m_growth_distance (geom.normalize right))
      match t.create_node r.2 pos_l radius_l with
      | none => none
      | some (t1, id_l) =>
        match t1.create_node r.2 pos_r radius_r with
        | none => none
        | some (t2, id_r) =>
          let t3 := Tree.to_root (recalc_radii geom sett) t2.length t2 r.2
          some { data with
            m_forest := data.m_forest.set r.1 t3
            m_node_search := data.m_node_search
              ++ [(pos_l, (r.1, id_l)), (pos_r, (r.1, id_r))] }

/-- Sprout branch of synthesizer::step_growth (elongation or lateral
sprout): skipped entirely under only_leaf_development for nodes that are
neither leaves nor intermediates, skipped for intermediate roots (the TODO
guard forcing roots to one child), otherwise one child along the blended
direction. -/
def grow_sprout (geom : Geom) (sett : SettingsSystem) (params : ParameterSystem)
    (data : SystemData) (r : NodeRef) (t : Tree) (node : Node)
    (dir : Vec3) : Option SystemData :=
  if sett.m_only_leaf_development = false || (node.is_leaf || node.is_inter) then
    if node.is_root && node.is_inter then some data
    else
      let pos_e := vadd node.m_pos (smul params.m_growth_distance (geom.normalize dir))
      match t.create_node r.2 pos_e sett.m_term_radius with
      | none => none
      | some (t1, id_e) =>
        let t2 := Tree.to_root (recalc_radii geom sett) t1.length t1 r.2
        some { data with
          m_forest := data.m_forest.set r.1 t2
          m_node_search := data.m_node_search ++ [(pos_e, (r.1, id_e))] }
  else some data

/-- One iteration of the association loop of synthesizer::step_growth,
developing the node r from its associated attraction points: average
direction, bias and bifurcation detection, then either a Murray
bifurcation from a leaf (grow_bif) or a sprout (grow_sprout).  Returns
none exactly when a tree access cannot be resolved or create_node rejects
its parent, the situations the source treats as programmer errors. -/
def grow_one (geom : Geom) (sett : SettingsSystem) (params : ParameterSystem)
    (data : SystemData) (r : NodeRef) (attr_list : List Vec3) : Option SystemData :=
  match data.m_forest[r.1]? with
  | none => none
  | some t =>
    match t[r.2]? with
    | none => none
    | some node =>
      let dir0 := geom.normalize (attr_list.foldl
        (fun acc att => vadd acc (geom.normalize (vsub att node.m_pos))) ⟨0, 0, 0⟩)
      match bias_and_bif geom sett t node dir0 attr_list with
      | none => none
      | some (bifurcation, dir) =>
        if node.is_leaf && bifurcation then
          grow_bif geom sett params data r t node attr_list
        else grow_sprout geom sett params data r t node dir

/-- Embedding of synthesizer::step_growth: develop every association of
the map in order. -/
def step_growth (geom : Geom) (sett : SettingsSystem) (params : ParameterSystem)
    (data : SystemData) (attr_map : List (NodeRef × List Vec3)) : Option SystemData :=
  attr_map.foldlM (fun d e => grow_one geom sett params d e.1 e.2) data

/-- Embedding of synthesizer::step_kill.  The accumulator of node query
results mirrors the source exactly: the nodes vector is declared once per
association entry and euclidean_range appends to it without clearing, so
the emptiness test for a point sees the results accumulated for all
earlier points of the same list. -/
def step_kill (params : ParameterSystem) (data : SystemData)
    (attr_map : List (NodeRef × List Vec3)) : SystemData :=
  attr_map.foldl (fun d e =>
    (e.2.foldl (fun (acc : List NodeRef × SystemData) p =>
      let nodes := acc.1 ++ node_range acc.2.m_node_search p params.m_kill_attr
      if nodes.isEmpty then (nodes, acc.2)
      else (nodes,
        { acc.2 with
          m_attr_search := acc.2.m_attr_search.erase p
          m_killed_attr := acc.2.m_killed_attr ++ [p] })) ([], d)).2) data

/-- Embedding of synthesizer::step for one system: nothing happens on an
empty forest, otherwise association, growth and kill in sequence. -/
def step (geom : Geom) (sett : SettingsSystem) (params : ParameterSystem)
    (data : SystemData) : Option SystemData :=
  if data.m_forest = [] then some data
  else
    let attr_map := step_closest geom sett params data
    match step_growth geom sett params data attr_map with
    | none => none
    | some d2 => some (step_kill params d2 attr_map)

/-- Embedding of synthesizer::sample_attraction: every point delivered by
the domain for this iteration is offered to the arterial system through
try_attr. -/
def sample_attraction (pts : List Vec3) (st : SynthState) : SynthState :=
  pts.foldl (fun s p => try_attr s Sys.arterial p) st

/-- Body of one iteration of the main loop of synthesizer::run: sample,
develop the arterial system, couple, develop the venous system, then grow
the domain of both systems. -/
def run_body (geom : Geom) (pts : List Vec3) (st : SynthState) : Option SynthState :=
  let st1 := sample_attraction pts st
  match step geom st1.m_settings.sys_a st1.m_params.sys_a st1.m_sys_a with
  | none => none
  | some a2 =>
    let st2 := combine_systems { st1 with m_sys_a := a2 }
    match step geom st2.m_settings.sys_v st2.m_params.sys_v st2.m_sys_v with
    | none => none
    | some v2 =>
      some (domain_growth (domain_growth { st2 with m_sys_v := v2 } Sys.arterial) Sys.venous)

/-- Increment of the step counter performed by the post increment inside
the loop guard of synthesizer::run; it happens at every guard evaluation,
including the failing one. -/
def inc_step (st : SynthState) : SynthState :=
  { st with m_params := { st.m_params with m_curr_step := st.m_params.m_curr_step + 1 } }

/-- Main loop of synthesizer::run.  The guard evaluates the post
incremented counter against the settings step count and then the running
flag.  The fuel argument bounds the number of iterations; run passes the
step count itself, which suffices because the counter starts at zero and
increases at every guard evaluation while the body leaves it unchanged. -/
def run_loop (geom : Geom) (dom : Nat → List Vec3) (steps : Nat) :
    Nat → SynthState → Option SynthState
  | 0, st => some (inc_step st)
  | fuel + 1, st =>
    let st2 := inc_step st
    if decide (st.m_params.m_curr_step < steps) && st2.m_is_running then
      match run_body geom (dom st.m_params.m_curr_step) st2 with
      | none => none
      | some st3 => run_loop geom dom steps fuel st3
    else some st2

/-- Embedding of synthesizer::run: immediate silent return on an empty
arterial forest; otherwise the runtime parameters are initialized, the
running flag raised, the main loop executed, and the flag cleared.  The
domain is abstracted as the stream of point lists it would deliver at each
iteration. -/
def run (geom : Geom) (dom : Nat → List Vec3) (st : SynthState) : Option SynthState :=
  if st.m_sys_a.m_forest = [] then some st
  else
    let st1 := { init_runtime_params st with m_is_running := true }
    match run_loop geom dom st1.m_settings.m_steps st1.m_settings.m_steps st1 with
    | none => none
    | some st2 => some { st2 with m_is_running := false }


/-- Default per-system settings used by the concrete evaluation states. -/
def sett0 : SettingsSystem :=
  ⟨1, 1, 1, 1, 1, 1, 90, 0, 3, 1 / 2, false, ⟨GrowType.none, 0⟩⟩

/-- Default per-system runtime parameters used by the concrete evaluation
states. -/
def param0 : ParameterSystem := ⟨1, 1, 1, 1, 1, 1⟩

/-- Default top level settings. -/
def settings0 : Settings := ⟨sett0, sett0, 0, 0⟩

/-- System data holding a single one node tree rooted at the origin,
indexed accordingly. -/
def d_one_root : SystemData :=
  ⟨[[⟨⟨0, 0, 0⟩, 1, none, []⟩]], [(⟨0, 0, 0⟩, (0, 0))], [], []⟩

/-- Empty system data. -/
def d_empty : SystemData := ⟨[], [], [], []⟩

/-- Concrete state for the coupling counterexample: the venous system has
a node at the origin, the arterial satisfied list holds exactly the origin,
and the venous runtime birth_node is one. -/
def st_c1 : SynthState :=
  ⟨{ d_empty with m_killed_attr := [⟨0, 0, 0⟩] }, d_one_root, settings0,
    ⟨param0, param0, 0⟩, false⟩

/-- Concrete system data for the kill step evaluation: one node at the
origin, two attraction points, one at the origin and one far away. -/
def d_c2 : SystemData :=
  ⟨[[⟨⟨0, 0, 0⟩, 1, none, []⟩]], [(⟨0, 0, 0⟩, (0, 0))],
    [⟨0, 0, 0⟩, ⟨10, 0, 0⟩], []⟩

/-- Association map for the kill step evaluation: both attraction points
are associated with the single node. -/
def map_c2 : List (NodeRef × List Vec3) := [((0, 0), [⟨0, 0, 0⟩, ⟨10, 0, 0⟩])]

/-- Concrete state for the zero step run counterexample: non empty
arterial forest, step counter previously at five, zero steps requested. -/
def st_c7 : SynthState :=
  ⟨d_one_root, d_empty, settings0, ⟨param0, param0, 5⟩, false⟩

/-- Settings with a linear growth function of positive value. -/
def sett_lin : SettingsSystem :=
  { sett0 with m_grow_func := ⟨GrowType.linear, 1 / 10⟩ }

/-- Settings with a linear growth function of negative value. -/
def sett_neg : SettingsSystem :=
  { sett0 with m_grow_func := ⟨GrowType.linear, -(1 / 2)⟩ }


/-- View of the structural part of a node: position, parent and children,
everything except the radius. -/
def node_shape (n : Node) : Vec3 × Option Nat × List Nat :=
  (n.m_pos, n.m_parent, n.m_children)

/-- Tree level child count invariant: every node has at most two
children. -/
def tchildren_ok (t : Tree) : Prop := ∀ n ∈ t, n.m_children.length ≤ 2

/-- Tree level parent validity: every stored parent identifier resolves
inside the arena. -/
def tparents_ok (t : Tree) : Prop := ∀ n ∈ t, ∀ p ∈ n.m_parent, p < t.length

/-- Forest level child count invariant. -/
def children_ok (f : Forest) : Prop := ∀ t ∈ f, tchildren_ok t

/-- Forest level parent validity. -/
def parents_ok (f : Forest) : Prop := ∀ t ∈ f, tparents_ok t

/-- A growth key is safe when it resolves to a node with at most one
child, which is exactly what create_node needs to accept a new child. -/
def key_ok (f : Forest) (r : NodeRef) : Prop :=
  ∃ n, f.get_node? r = some n ∧ n.m_children.length ≤ 1

/-- Tree used by the concrete bifurcation evaluation: a root with one
child, the child being a leaf. -/
def t_c6 : Tree := [⟨⟨0, 0, 0⟩, 1, none, [1]⟩, ⟨⟨0, 0, 1⟩, 1, some 0, []⟩]

/-- The leaf node of t_c6. -/
def node_c6 : Node := ⟨⟨0, 0, 1⟩, 1, some 0, []⟩

/-- Two attraction points associated with node_c6. -/
def attr_c6 : List Vec3 := [⟨1, 0, 1⟩, ⟨-1, 0, 1⟩]


/-- Relation between a tree and an evolved version of it produced while
growing node i: the arena only grew, both structural invariants hold in
the result, and every node other than i keeps its structural shape
(position, parent, children); only node i and the fresh nodes may differ
structurally, and radii may change anywhere. -/
def tree_ext (t t2 : Tree) (i : Nat) : Prop :=
  t.length ≤ t2.length ∧ tchildren_ok t2 ∧ tparents_ok t2 ∧
  ∀ j : Nat, j ≠ i → ∀ n, t[j]? = some n →
    ∃ n2, t2[j]? = some n2 ∧ node_shape n2 = node_shape n


/-- Outcome predicate for one growth action on key r: the action succeeds
(no create_node precondition violation, no unresolved handle), both
structural invariants hold afterwards, and every node other than r keeps
its structural shape. -/
def grown_ok (data : SystemData) (r : NodeRef) (o : Option SystemData) : Prop :=
  ∃ d2, o = some d2 ∧ children_ok d2.m_forest ∧ parents_ok d2.m_forest ∧
    ∀ r2 : NodeRef, r2 ≠ r → ∀ n2, Forest.get_node? data.m_forest r2 = some n2 →
      ∃ n3, Forest.get_node? d2.m_forest r2 = some n3 ∧ node_shape n3 = node_shape n2


/-- A key of the association map built by step_closest: it resolves in the
forest and is not a joint (the minimum selection loop skips joints). -/
def nonjoint_key (f : Forest) (r : NodeRef) : Prop :=
  ∃ n, Forest.get_node? f r = some n ∧ n.is_joint = false


theorem set_sys_data_get_self (st : SynthState) (sys : Sys) :
    st.set_sys_data sys (st.get_sys_data sys) = st := by
  cases sys <;> rfl

theorem foldl_create_attr (l : List Vec3) (d : SystemData) :
    l.foldl (fun d pos => create_attr d pos) d
      = { d with m_attr_search := d.m_attr_search ++ l } := by
  induction l generalizing d with
  | nil => simp
  | cons p rest ih =>
    rw [List.foldl_cons, ih (create_attr d p)]
    simp [create_attr, List.append_assoc]

/-- Claim C4: try_attr inserts an attraction at pos exactly when no node
of the system lies within the runtime birth_node distance of pos and no
existing attraction lies within the runtime birth_attr distance of pos
(the node query is evaluated first in the source); when either check
fires, the state is returned unchanged. -/
theorem c4_try_attr (st : SynthState) (sys : Sys) (pos : Vec3) :
    ((∀ e ∈ (st.get_sys_data sys).m_node_search,
        within_dist (st.m_params.get_sys sys).m_birth_node e.1 pos = false) ∧
     (∀ q ∈ (st.get_sys_data sys).m_attr_search,
        within_dist (st.m_params.get_sys sys).m_birth_attr q pos = false) →
      try_attr st sys pos = st.set_sys_data sys
        { st.get_sys_data sys with
          m_attr_search := (st.get_sys_data sys).m_attr_search ++ [pos] }) ∧
    ((∃ e ∈ (st.get_sys_data sys).m_node_search,
        within_dist (st.m_params.get_sys sys).m_birth_node e.1 pos = true) ∨
     (∃ q ∈ (st.get_sys_data sys).m_attr_search,
        within_dist (st.m_params.get_sys sys).m_birth_attr q pos = true) →
      try_attr st sys pos = st) := by
  constructor
  · rintro ⟨h1, h2⟩
    have hn : node_range (st.get_sys_data sys).m_node_search pos
        (st.m_params.get_sys sys).m_birth_node = [] := by
      simp only [node_range, List.map_eq_nil_iff, List.filter_eq_nil_iff]
      intro e he
      simp [h1 e he]
    have ha : attr_range (st.get_sys_data sys).m_attr_search pos
        (st.m_params.get_sys sys).m_birth_attr = [] := by
      simp only [attr_range, List.filter_eq_nil_iff]
      intro q hq
      simp [h2 q hq]
    simp [try_attr, try_attr_data, hn, ha]
  · intro h
    rcases h with ⟨e, he, hw⟩ | ⟨q, hq, hw⟩
    · have hn : (node_range (st.get_sys_data sys).m_node_search pos
          (st.m_params.get_sys sys).m_birth_node).isEmpty = false := by
        simp only [node_range, List.isEmpty_eq_false, ne_eq,
          List.map_eq_nil_iff, List.filter_eq_nil_iff]
        push_neg
        exact ⟨e, he, by simp [hw]⟩
      simp [try_attr, try_attr_data, hn, set_sys_data_get_self]
    · have ha : (attr_range (st.get_sys_data sys).m_attr_search pos
          (st.m_params.get_sys sys).m_birth_attr).isEmpty = false := by
        simp only [attr_range, List.isEmpty_eq_false, ne_eq,
          List.filter_eq_nil_iff]
        push_neg
        exact ⟨q, hq, by simp [hw]⟩
      by_cases hn : (node_range (st.get_sys_data sys).m_node_search pos
          (st.m_params.get_sys sys).m_birth_node).isEmpty
      · simp [try_attr, try_attr_data, hn, ha, set_sys_data_get_self]
      · simp only [Bool.not_eq_true] at hn
        simp [try_attr, try_attr_data, hn, set_sys_data_get_self]

/-- Claim C4 witness: on a state with empty indices the insertion branch
of try_attr fires. -/
theorem c4_try_attr_witness :
    try_attr ⟨d_empty, d_empty, settings0, ⟨param0, param0, 0⟩, false⟩
        Sys.arterial ⟨0, 0, 0⟩
      = SynthState.set_sys_data
          ⟨d_empty, d_empty, settings0, ⟨param0, param0, 0⟩, false⟩ Sys.arterial
          { SynthState.get_sys_data
              ⟨d_empty, d_empty, settings0, ⟨param0, param0, 0⟩, false⟩ Sys.arterial with
            m_attr_search :=
              (SynthState.get_sys_data
                ⟨d_empty, d_empty, settings0, ⟨param0, param0, 0⟩, false⟩
                  Sys.arterial).m_attr_search ++ [⟨0, 0, 0⟩] } :=
  (c4_try_attr ⟨d_empty, d_empty, settings0, ⟨param0, param0, 0⟩, false⟩
    Sys.arterial ⟨0, 0, 0⟩).1 (by decide)

/-- Claim C10: create_root appends a fresh one node tree whose root sits
at pos with the term_radius of that system settings, inserts the new root
into the node index of that system, and changes nothing else. -/
theorem c10_create_root (st : SynthState) (sys : Sys) (pos : Vec3) :
    Tree.create_root pos (st.m_settings.get_sys sys).m_term_radius
      = [⟨pos, (st.m_settings.get_sys sys).m_term_radius, none, []⟩] ∧
    (create_root st sys pos).get_sys_data sys
      = { st.get_sys_data sys with
          m_forest := (st.get_sys_data sys).m_forest
            ++ [Tree.create_root pos (st.m_settings.get_sys sys).m_term_radius]
          m_node_search := (st.get_sys_data sys).m_node_search
            ++ [(pos, ((st.get_sys_data sys).m_forest.length, 0))] } ∧
    (∀ sys2, sys2 ≠ sys →
      (create_root st sys pos).get_sys_data sys2 = st.get_sys_data sys2) ∧
    (create_root st sys pos).m_settings = st.m_settings ∧
    (create_root st sys pos).m_params = st.m_params ∧
    (create_root st sys pos).m_is_running = st.m_is_running := by
  refine ⟨rfl, ?_, ?_, ?_, ?_, ?_⟩ <;>
    first
      | (cases sys <;> rfl)
      | (intro sys2 hne; cases sys <;> cases sys2 <;> first | rfl | exact absurd rfl hne)

/-- Claim C10 witness: concrete root creation in the arterial system. -/
theorem c10_create_root_witness :
    (create_root st_c7 Sys.arterial ⟨2, 0, 0⟩).get_sys_data Sys.venous
        = st_c7.get_sys_data Sys.venous ∧
    (create_root st_c7 Sys.arterial ⟨2, 0, 0⟩).get_sys_data Sys.arterial
      = { st_c7.get_sys_data Sys.arterial with
          m_forest := (st_c7.get_sys_data Sys.arterial).m_forest
            ++ [Tree.create_root ⟨2, 0, 0⟩
                  (st_c7.m_settings.get_sys Sys.arterial).m_term_radius]
          m_node_search := (st_c7.get_sys_data Sys.arterial).m_node_search
            ++ [(⟨2, 0, 0⟩, ((st_c7.get_sys_data Sys.arterial).m_forest.length, 0))] } :=
  ⟨(c10_create_root st_c7 Sys.arterial ⟨2, 0, 0⟩).2.2.1 Sys.venous (by decide),
    (c10_create_root st_c7 Sys.arterial ⟨2, 0, 0⟩).2.1⟩

/-- Claim C1 counterexample: in st_c1 the venous forest is non empty and
the satisfied arterial position lies within the venous runtime birth_node
distance of a venous node, so the try_attr predicate would reject it (the
last conjunct shows try_attr leaving the venous system unchanged), yet
combine_systems inserts it into the venous attraction index. -/
theorem c1_counterexample :
    st_c1.m_sys_v.m_forest ≠ [] ∧
    (∃ e ∈ st_c1.m_sys_v.m_node_search,
      within_dist (st_c1.m_params.get_sys Sys.venous).m_birth_node e.1 ⟨0, 0, 0⟩ = true) ∧
    ⟨0, 0, 0⟩ ∈ (combine_systems st_c1).m_sys_v.m_attr_search ∧
    try_attr_data (st_c1.m_params.get_sys Sys.venous) st_c1.m_sys_v ⟨0, 0, 0⟩
      = st_c1.m_sys_v := by with_unfolding_all decide

/-- Claim C1 as amended: when the venous forest is empty, combine_systems
changes nothing; when it is non empty, every satisfied arterial position
is appended unconditionally (create_attr, no try_attr predicate) to the
venous attraction index, the arterial satisfied list is cleared, and all
other components are unchanged. -/
theorem c1_combine_systems (st : SynthState) :
    (st.m_sys_v.m_forest = [] → combine_systems st = st) ∧
    (st.m_sys_v.m_forest ≠ [] →
      (combine_systems st).m_sys_v.m_attr_search
          = st.m_sys_v.m_attr_search ++ st.m_sys_a.m_killed_attr ∧
      (combine_systems st).m_sys_a.m_killed_attr = [] ∧
      (combine_systems st).m_sys_a
          = { st.m_sys_a with m_killed_attr := [] } ∧
      (combine_systems st).m_sys_v
          = { st.m_sys_v with
              m_attr_search := st.m_sys_v.m_attr_search ++ st.m_sys_a.m_killed_attr } ∧
      (combine_systems st).m_settings = st.m_settings ∧
      (combine_systems st).m_params = st.m_params ∧
      (combine_systems st).m_is_running = st.m_is_running) := by
  constructor
  · intro h
    simp [combine_systems, h]
  · intro h
    have hv : ∀ d : SystemData,
        st.m_sys_a.m_killed_attr.foldl (fun d pos => create_attr d pos) d
          = { d with m_attr_search := d.m_attr_search ++ st.m_sys_a.m_killed_attr } :=
      fun d => foldl_create_attr _ d
    simp [combine_systems, h, hv]

/-- Claim C1 witness: the amended statement evaluated on st_c1. -/
theorem c1_combine_systems_witness :
    (combine_systems st_c1).m_sys_v.m_attr_search
        = st_c1.m_sys_v.m_attr_search ++ st_c1.m_sys_a.m_killed_attr ∧
    (combine_systems st_c1).m_sys_a.m_killed_attr = [] :=
  ⟨((c1_combine_systems st_c1).2 (by decide)).1,
    ((c1_combine_systems st_c1).2 (by decide)).2.1⟩

/-- Claim C2 evaluation at the failing input: the kill step removes the
far attraction point and records it as satisfied although no node lies
within the kill_attr distance of it, because the node query buffer keeps
the hits of the earlier point of the same association list. -/
theorem c2_step_kill_bug :
    (step_kill param0 d_c2 map_c2).m_attr_search = [] ∧
    (step_kill param0 d_c2 map_c2).m_killed_attr = [⟨0, 0, 0⟩, ⟨10, 0, 0⟩] ∧
    (∀ e ∈ d_c2.m_node_search,
      within_dist param0.m_kill_attr e.1 ⟨10, 0, 0⟩ = false) := by with_unfolding_all decide

/-- Claim C3 counterexample: on a system holding one root node, the exact
source call set_forest(sys, get_forest(sys)) empties the forest (the
argument is a reference that set_forest clears before copying), so node
positions, topology and node index membership are not preserved. -/
theorem c3_counterexample :
    (set_forest_self d_one_root).m_forest = [] ∧
    d_one_root.m_forest ≠ [] ∧
    (set_forest_self d_one_root).m_node_search = [] ∧
    d_one_root.m_node_search ≠ [] := by with_unfolding_all decide

/-- Claim C3 as amended: set_forest applied to a copy of the forest taken
before the call keeps the forest (hence node positions, topology and
radii) unchanged, and keeps node index membership unchanged whenever the
index held exactly the forest nodes beforehand. -/
theorem c3_set_forest_copy (d : SystemData)
    (h : ∀ e : Vec3 × NodeRef, e ∈ d.m_node_search ↔ e ∈ rebuild_index d.m_forest) :
    (set_forest d (get_forest d)).m_forest = d.m_forest ∧
    (∀ e : Vec3 × NodeRef,
      e ∈ (set_forest d (get_forest d)).m_node_search ↔ e ∈ d.m_node_search) := by
  refine ⟨rfl, fun e => ?_⟩
  rw [h e]
  rfl

/-- Claim C3 witness: the amended round trip evaluated on the one root
system. -/
theorem c3_set_forest_copy_witness :
    (set_forest d_one_root (get_forest d_one_root)).m_forest = d_one_root.m_forest ∧
    ((⟨0, 0, 0⟩, ((0 : Nat), (0 : Nat)))
        ∈ (set_forest d_one_root (get_forest d_one_root)).m_node_search ↔
      (⟨0, 0, 0⟩, ((0 : Nat), (0 : Nat))) ∈ d_one_root.m_node_search) :=
  ⟨(c3_set_forest_copy d_one_root (fun e => by
      rw [show d_one_root.m_node_search = rebuild_index d_one_root.m_forest from by decide])).1,
    (c3_set_forest_copy d_one_root (fun e => by
      rw [show d_one_root.m_node_search = rebuild_index d_one_root.m_forest from by decide])).2 _⟩

theorem grow_scaling_ge (gf : GrowFunc)
    (h : gf.m_type = GrowType.none ∨ 0 ≤ gf.m_value) (s : ℚ) (hs : 1 ≤ s) :
    s ≤ grow_scaling gf s := by
  rcases h with h | h
  · simp [grow_scaling, h]
  · cases htype : gf.m_type <;> simp [grow_scaling, htype] <;> nlinarith

/-- Claim C8 as amended: starting from init_runtime_params, the scaling
parameter stays at least one and is monotonically non decreasing across
domain_growth calls, for the none variant and for linear and exponential
variants with a non negative growth value. -/
theorem c8_scaling (sett : SettingsSystem)
    (h : sett.m_grow_func.m_type = GrowType.none ∨ 0 ≤ sett.m_grow_func.m_value) :
    ∀ n, 1 ≤ (dg_iter sett n).m_scaling ∧
      (dg_iter sett n).m_scaling ≤ (dg_iter sett (n + 1)).m_scaling := by
  have hone : ∀ n, 1 ≤ (dg_iter sett n).m_scaling := by
    intro n
    induction n with
    | zero => simp [dg_iter, init_param_sys]
    | succ k ih =>
      calc (1 : ℚ) ≤ (dg_iter sett k).m_scaling := ih
        _ ≤ grow_scaling sett.m_grow_func (dg_iter sett k).m_scaling :=
            grow_scaling_ge _ h _ ih
        _ = (dg_iter sett (k + 1)).m_scaling := rfl
  intro n
  exact ⟨hone n, grow_scaling_ge _ h _ (hone n)⟩

/-- Claim C8 witness: the amended statement with a linear growth value of
one tenth, at the third step. -/
theorem c8_scaling_witness :
    1 ≤ (dg_iter sett_lin 3).m_scaling ∧
      (dg_iter sett_lin 3).m_scaling ≤ (dg_iter sett_lin 4).m_scaling :=
  c8_scaling sett_lin (Or.inr (by norm_num [sett_lin, sett0])) 3

/-- Claim C8 counterexample: a linear growth function with value minus one
half is a permitted settings value, and after one domain_growth call the
scaling drops below one and below its previous value. -/
theorem c8_counterexample :
    (dg_iter sett_neg 1).m_scaling < 1 ∧
    (dg_iter sett_neg 1).m_scaling < (dg_iter sett_neg 0).m_scaling := by with_unfolding_all decide


/-- Claim C7 counterexample: on a state with a non empty arterial forest
whose step counter stands at five, a zero step run is not a no op: the
counter comes back as one (the loop guard post increments it after
init_runtime_params reset it to zero), so the observable state differs. -/
theorem c7_counterexample :
    (run triv_geom (fun _ => []) st_c7).map (fun s => s.m_params.m_curr_step) = some 1 ∧
    st_c7.m_params.m_curr_step = 5 ∧
    run triv_geom (fun _ => []) st_c7 ≠ some st_c7 := by with_unfolding_all decide

/-- Claim C7 as amended: with a non empty arterial forest and zero steps,
run creates and removes no nodes and no attractions and leaves both system
data records, the settings and the running flag as before, but it resets
the runtime parameters from the settings and leaves the step counter at
one. -/
theorem c7_run_zero_steps (geom : Geom) (dom : Nat → List Vec3) (st : SynthState)
    (h : st.m_sys_a.m_forest ≠ []) (hsteps : st.m_settings.m_steps = 0) :
    run geom dom st = some
      { st with
        m_params := ⟨init_param_sys st.m_settings.sys_a,
                     init_param_sys st.m_settings.sys_v, 1⟩
        m_is_running := false } := by
  simp only [run, h, if_false, init_runtime_params, hsteps, run_loop, inc_step]

/-- Claim C7 witness: the amended statement evaluated on st_c7. -/
theorem c7_run_zero_steps_witness :
    run triv_geom (fun _ => []) st_c7 = some
      { st_c7 with
        m_params := ⟨init_param_sys st_c7.m_settings.sys_a,
                     init_param_sys st_c7.m_settings.sys_v, 1⟩
        m_is_running := false } :=
  c7_run_zero_steps triv_geom (fun _ => []) st_c7 (by with_unfolding_all decide) rfl

theorem clamp1_mem (x : ℝ) : -1 ≤ clamp1 x ∧ clamp1 x ≤ 1 := by
  unfold clamp1
  constructor
  · exact le_min (le_max_right x (-1)) (by norm_num)
  · exact min_le_right _ 1

theorem clamp1_half : clamp1 (1 / 2) = 1 / 2 := by
  unfold clamp1
  rw [max_eq_left (by norm_num), min_eq_left (by norm_num)]

theorem arccos_half : Real.arccos (1 / 2) = Real.pi / 3 := by
  have h := Real.cos_pi_div_three
  calc Real.arccos (1 / 2) = Real.arccos (Real.cos (Real.pi / 3)) := by rw [h]
    _ = Real.pi / 3 := Real.arccos_cos (by positivity)
        (by linarith [Real.pi_pos])

theorem murray_angles_eq_radii (r : ℝ) (hr : 0 < r) :
    law.murray_angles r r r = (-60, 60) := by
  have hne : (2 : ℝ) * r ^ 2 * r ^ 2 ≠ 0 := by positivity
  have harg : (r ^ 4 + r ^ 4 - r ^ 4) / (2 * r ^ 2 * r ^ 2) = 1 / 2 := by
    field_simp
    ring
  have harg2 : (r ^ 4 - r ^ 4 + r ^ 4) / (2 * r ^ 2 * r ^ 2) = 1 / 2 := by
    field_simp
    ring
  have hpi := Real.pi_ne_zero
  unfold law.murray_angles
  rw [harg, harg2, clamp1_half]
  show (-(Real.arccos (1 / 2) * 180 / Real.pi), Real.arccos (1 / 2) * 180 / Real.pi)
    = (-60, 60)
  rw [arccos_half]
  rw [Prod.mk.injEq]
  constructor <;> field_simp <;> ring

/-- Claim C9: for strictly positive radii, the first Murray angle is non
positive and the second non negative, both acos arguments are clamped
into the interval from minus one to one (so the real acos is defined and
no NaN can arise), and for equal radii the result is the pair of minus
sixty and plus sixty degrees, within one ten thousandth. -/
theorem c9_murray_angles :
    (∀ r_p r_l r_r : ℝ, 0 < r_p → 0 < r_l → 0 < r_r →
      (law.murray_angles r_p r_l r_r).1 ≤ 0 ∧
      0 ≤ (law.murray_angles r_p r_l r_r).2 ∧
      (-1 ≤ clamp1 ((r_p ^ 4 + r_l ^ 4 - r_r ^ 4) / (2 * r_p ^ 2 * r_l ^ 2)) ∧
        clamp1 ((r_p ^ 4 + r_l ^ 4 - r_r ^ 4) / (2 * r_p ^ 2 * r_l ^ 2)) ≤ 1) ∧
      (-1 ≤ clamp1 ((r_p ^ 4 - r_l ^ 4 + r_r ^ 4) / (2 * r_p ^ 2 * r_r ^ 2)) ∧
        clamp1 ((r_p ^ 4 - r_l ^ 4 + r_r ^ 4) / (2 * r_p ^ 2 * r_r ^ 2)) ≤ 1)) ∧
    (∀ r : ℝ, 0 < r →
      |(law.murray_angles r r r).1 - (-60)| ≤ 1 / 10000 ∧
      |(law.murray_angles r r r).2 - 60| ≤ 1 / 10000) := by
  have hpi := Real.pi_pos
  constructor
  · intro r_p r_l r_r _ _ _
    refine ⟨?_, ?_, clamp1_mem _, clamp1_mem _⟩
    · unfold law.murray_angles
      simp only
      have h1 : 0 ≤ Real.arccos
          (clamp1 ((r_p ^ 4 + r_l ^ 4 - r_r ^ 4) / (2 * r_p ^ 2 * r_l ^ 2))) :=
        Real.arccos_nonneg _
      have h2 : 0 ≤ (180 : ℝ) / Real.pi := by positivity
      rw [neg_nonpos, mul_div_assoc]
      exact mul_nonneg h1 h2
    · unfold law.murray_angles
      simp only
      have h1 : 0 ≤ Real.arccos
          (clamp1 ((r_p ^ 4 - r_l ^ 4 + r_r ^ 4) / (2 * r_p ^ 2 * r_r ^ 2))) :=
        Real.arccos_nonneg _
      have h2 : 0 ≤ (180 : ℝ) / Real.pi := by positivity
      rw [mul_div_assoc]
      exact mul_nonneg h1 h2
  · intro r hr
    rw [murray_angles_eq_radii r hr]
    norm_num

/-- Claim C9 witness: evaluation at unit radii. -/
theorem c9_murray_angles_witness :
    (law.murray_angles 1 1 1).1 ≤ 0 ∧
    |(law.murray_angles 1 1 1).2 - 60| ≤ 1 / 10000 :=
  ⟨(c9_murray_angles.1 1 1 1 one_pos one_pos one_pos).1,
    (c9_murray_angles.2 1 one_pos).2⟩


theorem sd_sq_nonneg (geom : Geom) (node : Node) (d_parent : Vec3)
    (attr_list : List Vec3) : 0 ≤ sd_sq geom node d_parent attr_list := by
  unfold sd_sq
  apply List.sum_nonneg
  intro a ha
  simp only [List.mem_map] at ha
  obtain ⟨b, -, rfl⟩ := ha
  positivity

theorem bif_decision_iff (geom : Geom) (sett : SettingsSystem) (node : Node)
    (d_parent : Vec3) (attr_list : List Vec3) :
    bif_decision geom sett node d_parent attr_list = true ↔
      (node.is_leaf = true ∧ 1 < attr_list.length ∧ 0 ≤ sett.m_bif_thresh ∧
        sett.m_bif_thresh ^ 2 ≤ sd_sq geom node d_parent attr_list) := by
  unfold bif_decision
  split
  next hcond =>
    rw [Bool.and_eq_true, Bool.and_eq_true] at hcond
    obtain ⟨⟨hleaf, hlen⟩, hth⟩ := hcond
    rw [decide_eq_true_eq]
    constructor
    · intro h
      exact ⟨hleaf, of_decide_eq_true hlen, of_decide_eq_true hth, h⟩
    · exact fun h => h.2.2.2
  next hcond =>
    simp only [Bool.false_eq_true, false_iff]
    rintro ⟨hleaf, hlen, hth, -⟩
    exact hcond (by simp [hleaf, hlen, hth])

theorem rat_sq_le_iff_le_sqrt (q S : ℚ) (hq : 0 ≤ q) (hS : 0 ≤ S) :
    q ^ 2 ≤ S ↔ ((q : ℝ) ≤ Real.sqrt (S : ℝ)) := by
  rw [Real.le_sqrt (by exact_mod_cast hq) (by exact_mod_cast hS)]
  constructor
  · intro h
    exact_mod_cast h
  · intro h
    exact_mod_cast h

/-- Claim C6: the bifurcation branch of step_growth is taken for a node
exactly when the node is a non root leaf, more than one attraction point
is associated with it, the threshold is non negative, and the square root
of the sum of squared angle deviations from the mean (no division by the
population size) reaches the threshold; the angles are the degree angles
between the parent direction and the directions to the associated points. -/
theorem c6_bifurcation (geom : Geom) (sett : SettingsSystem) (t : Tree)
    (node : Node) (dir0 : Vec3) (attr_list : List Vec3) (pid : Nat) (par : Node)
    (b : Bool) (dir : Vec3)
    (hp : node.m_parent = some pid) (hpar : t[pid]? = some par)
    (hbb : bias_and_bif geom sett t node dir0 attr_list = some (b, dir)) :
    (node.is_leaf && b) = true ↔
      (node.is_root = false ∧ node.is_leaf = true ∧ 1 < attr_list.length ∧
        0 ≤ sett.m_bif_thresh ∧
        ((sett.m_bif_thresh : ℝ) ≤ Real.sqrt
          ((sd_sq geom node (geom.normalize (vsub node.m_pos par.m_pos)) attr_list : ℚ) : ℝ))) := by
  have hroot : node.is_root = false := by simp [Node.is_root, hp]
  unfold bias_and_bif at hbb
  rw [hp] at hbb
  simp only [hpar, Option.some.injEq, Prod.mk.injEq] at hbb
  obtain ⟨hb, -⟩ := hbb
  rw [Bool.and_eq_true, ← hb, bif_decision_iff]
  constructor
  · rintro ⟨hleaf, -, hlen, hth, hsd⟩
    refine ⟨hroot, hleaf, hlen, hth, ?_⟩
    exact (rat_sq_le_iff_le_sqrt _ _ hth (sd_sq_nonneg _ _ _ _)).1 hsd
  · rintro ⟨-, hleaf, hlen, hth, hsd⟩
    refine ⟨hleaf, hleaf, hlen, hth, ?_⟩
    exact (rat_sq_le_iff_le_sqrt _ _ hth (sd_sq_nonneg _ _ _ _)).2 hsd


/-- Claim C6 witness: the bifurcation criterion instantiated on a concrete
non root leaf with two associated points under the trivial geometry
oracle. -/
theorem c6_bifurcation_witness :
    (node_c6.is_leaf && true) = true ↔
      (node_c6.is_root = false ∧ node_c6.is_leaf = true ∧ 1 < attr_c6.length ∧
        0 ≤ sett0.m_bif_thresh ∧
        ((sett0.m_bif_thresh : ℝ) ≤ Real.sqrt
          ((sd_sq triv_geom node_c6
            (triv_geom.normalize (vsub node_c6.m_pos
              (Node.m_pos ⟨⟨0, 0, 0⟩, 1, none, [1]⟩))) attr_c6 : ℚ) : ℝ))) :=
  c6_bifurcation triv_geom sett0 t_c6 node_c6 ⟨0, 0, 0⟩ attr_c6 0
    ⟨⟨0, 0, 0⟩, 1, none, [1]⟩ true ⟨0, 0, 1 / 2⟩ rfl rfl
    (by with_unfolding_all decide)


theorem getElem?_some_lt {α : Type} (l : List α) (i : Nat) (a : α)
    (h : l[i]? = some a) : i < l.length := by
  obtain ⟨hlt, -⟩ := List.getElem?_eq_some.mp h
  exact hlt

theorem lt_getElem?_some {α : Type} (l : List α) (i : Nat) (h : i < l.length) :
    ∃ a, l[i]? = some a :=
  ⟨l[i], List.getElem?_eq_some.mpr ⟨h, rfl⟩⟩

theorem set_append_getElem? (t : Tree) (p : Nat) (m new : Node)
    (hplen : p < t.length) (j : Nat) :
    (t.set p m ++ [new])[j]? =
      if j = p then some m
      else if j = t.length then some new
      else t[j]? := by
  by_cases hj : j < t.length
  · rw [List.getElem?_append_left (by simpa using hj), List.getElem?_set]
    by_cases hjp : j = p
    · subst hjp
      simp [hj]
    · have hne1 : ¬p = j := fun h => hjp h.symm
      have hne2 : ¬j = t.length := by omega
      rw [if_neg hne1, if_neg hne2, if_neg hjp]
  · have hj2 : t.length ≤ j := Nat.le_of_not_lt hj
    rw [List.getElem?_append_right (by simpa using hj2)]
    by_cases hje : j = t.length
    · subst hje
      rw [if_neg (by omega), if_pos rfl]
      simp
    · rw [if_neg (by omega), if_neg hje]
      have h1 : ([new] : List Node)[j - t.length]? = none := by
        apply List.getElem?_eq_none
        simp
        omega
      have h2 : t[j]? = none := List.getElem?_eq_none (by omega)
      simp only [List.length_set]
      rw [h1, h2]

theorem update_node_length (t : Tree) (i : Nat) (g : Node → Node) :
    (t.update_node i g).length = t.length := by
  unfold Tree.update_node
  cases h : t[i]? <;> simp

theorem update_node_shape_lookup (t : Tree) (i : Nat) (g : Node → Node)
    (hg : ∀ n, node_shape (g n) = node_shape n) (j : Nat) :
    ((t.update_node i g)[j]?).map node_shape = (t[j]?).map node_shape := by
  unfold Tree.update_node
  cases h : t[i]? with
  | none => rfl
  | some n =>
    rw [List.getElem?_set]
    by_cases hij : i = j
    · subst hij
      have hlt : i < t.length := getElem?_some_lt _ _ _ h
      simp [hlt, h, hg n]
    · simp [hij]

theorem to_root_length (fn : Tree → Node → Node) :
    ∀ (fuel : Nat) (t : Tree) (i : Nat),
      (Tree.to_root fn fuel t i).length = t.length := by
  intro fuel
  induction fuel with
  | zero => intro t i; exact update_node_length t i (fn t)
  | succ k ih =>
    intro t i
    unfold Tree.to_root
    cases h1 : (t.update_node i (fn t))[i]? with
    | none => simp [h1, update_node_length]
    | some n =>
      cases h2 : n.m_parent with
      | none => simp [h1, h2, update_node_length]
      | some p =>
        simp only [h1, h2]
        rw [ih, update_node_length]

theorem to_root_shape_lookup (fn : Tree → Node → Node)
    (hfn : ∀ t n, node_shape (fn t n) = node_shape n) :
    ∀ (fuel : Nat) (t : Tree) (i j : Nat),
      ((Tree.to_root fn fuel t i)[j]?).map node_shape = (t[j]?).map node_shape := by
  intro fuel
  induction fuel with
  | zero => intro t i j; exact update_node_shape_lookup t i (fn t) (hfn t) j
  | succ k ih =>
    intro t i j
    unfold Tree.to_root
    cases h1 : (t.update_node i (fn t))[i]? with
    | none => simp only [h1]; exact update_node_shape_lookup t i (fn t) (hfn t) j
    | some n =>
      cases h2 : n.m_parent with
      | none => simp only [h1, h2]; exact update_node_shape_lookup t i (fn t) (hfn t) j
      | some p =>
        simp only [h1, h2]
        rw [ih]
        exact update_node_shape_lookup t i (fn t) (hfn t) j

theorem recalc_radii_shape (geom : Geom) (sett : SettingsSystem) :
    ∀ (t : Tree) (n : Node), node_shape (recalc_radii geom sett t n) = node_shape n := by
  intro t n
  unfold recalc_radii
  split
  · split
    · rfl
    · split <;> rfl
  · split
    · split
      · split
        · rfl
        · rfl
      · rfl
    · rfl

theorem tchildren_ok_of_shape (t t2 : Tree)
    (hsh : ∀ j : Nat, (t2[j]?).map node_shape = (t[j]?).map node_shape)
    (h : tchildren_ok t) : tchildren_ok t2 := by
  intro n hn
  obtain ⟨i, hi⟩ := List.mem_iff_getElem?.mp hn
  have hs := hsh i
  rw [hi] at hs
  cases h2 : t[i]? with
  | none =>
    rw [h2] at hs
    exact absurd hs (by simp)
  | some m =>
    rw [h2] at hs
    simp only [Option.map, Option.some.injEq, node_shape, Prod.mk.injEq] at hs
    rw [hs.2.2]
    have hm : m ∈ t := List.mem_iff_getElem?.mpr ⟨i, h2⟩
    exact h m hm

theorem tparents_ok_of_shape (t t2 : Tree) (hlen : t2.length = t.length)
    (hsh : ∀ j : Nat, (t2[j]?).map node_shape = (t[j]?).map node_shape)
    (h : tparents_ok t) : tparents_ok t2 := by
  intro n hn
  obtain ⟨i, hi⟩ := List.mem_iff_getElem?.mp hn
  have hs := hsh i
  rw [hi] at hs
  cases h2 : t[i]? with
  | none =>
    rw [h2] at hs
    exact absurd hs (by simp)
  | some m =>
    rw [h2] at hs
    simp only [Option.map, Option.some.injEq, node_shape, Prod.mk.injEq] at hs
    rw [hs.2.1, hlen]
    have hm : m ∈ t := List.mem_iff_getElem?.mpr ⟨i, h2⟩
    exact h m hm

theorem create_node_eq (t : Tree) (p : Nat) (pos : Vec3) (rad : ℚ) (pn : Node)
    (hp : t[p]? = some pn) (hc : pn.m_children.length ≤ 1) :
    t.create_node p pos rad =
      some (t.set p { pn with m_children := pn.m_children ++ [t.length] }
        ++ [⟨pos, rad, some p, []⟩], t.length) := by
  unfold Tree.create_node
  simp only [hp]
  rw [if_neg (by omega)]

theorem create_node_tchildren (t : Tree) (p : Nat) (pos : Vec3) (rad : ℚ)
    (pn : Node) (hp : t[p]? = some pn) (hc : pn.m_children.length ≤ 1)
    (hok : tchildren_ok t) :
    tchildren_ok (t.set p { pn with m_children := pn.m_children ++ [t.length] }
      ++ [⟨pos, rad, some p, []⟩]) := by
  intro n hn
  obtain ⟨j, hj⟩ := List.mem_iff_getElem?.mp hn
  rw [set_append_getElem? t p _ _ (getElem?_some_lt _ _ _ hp) j] at hj
  by_cases hjp : j = p
  · rw [if_pos hjp] at hj
    obtain rfl := Option.some.inj hj
    simp only [List.length_append, List.length_cons, List.length_nil]
    omega
  · rw [if_neg hjp] at hj
    by_cases hjl : j = t.length
    · rw [if_pos hjl] at hj
      obtain rfl := Option.some.inj hj
      simp
    · rw [if_neg hjl] at hj
      have hm : n ∈ t := List.mem_iff_getElem?.mpr ⟨j, hj⟩
      exact hok n hm

theorem create_node_tparents (t : Tree) (p : Nat) (pos : Vec3) (rad : ℚ)
    (pn : Node) (hp : t[p]? = some pn) (_hc : pn.m_children.length ≤ 1)
    (hok : tparents_ok t) :
    tparents_ok (t.set p { pn with m_children := pn.m_children ++ [t.length] }
      ++ [⟨pos, rad, some p, []⟩]) := by
  have hplen : p < t.length := getElem?_some_lt _ _ _ hp
  have hlen2 : (t.set p { pn with m_children := pn.m_children ++ [t.length] }
      ++ ([⟨pos, rad, some p, []⟩] : List Node)).length = t.length + 1 := by
    simp
  intro n hn q hq
  rw [hlen2]
  obtain ⟨j, hj⟩ := List.mem_iff_getElem?.mp hn
  rw [set_append_getElem? t p _ _ hplen j] at hj
  by_cases hjp : j = p
  · rw [if_pos hjp] at hj
    obtain rfl := Option.some.inj hj
    have hm : pn ∈ t := List.mem_iff_getElem?.mpr ⟨p, hp⟩
    have := hok pn hm q hq
    omega
  · rw [if_neg hjp] at hj
    by_cases hjl : j = t.length
    · rw [if_pos hjl] at hj
      obtain rfl := Option.some.inj hj
      simp only [Option.mem_def, Option.some.injEq] at hq
      omega
    · rw [if_neg hjl] at hj
      have hm : n ∈ t := List.mem_iff_getElem?.mpr ⟨j, hj⟩
      have := hok n hm q hq
      omega


theorem map_shape_some (o : Option Node) (n : Node)
    (h : o.map node_shape = some (node_shape n)) :
    ∃ n2, o = some n2 ∧ node_shape n2 = node_shape n := by
  cases o with
  | none => simp at h
  | some m => exact ⟨m, rfl, by simpa using h⟩

theorem tree_ext_trans (t t1 t2 : Tree) (i : Nat)
    (h1 : tree_ext t t1 i) (h2 : tree_ext t1 t2 i) : tree_ext t t2 i := by
  refine ⟨le_trans h1.1 h2.1, h2.2.1, h2.2.2.1, fun j hj n hn => ?_⟩
  obtain ⟨m, hm, hs⟩ := h1.2.2.2 j hj n hn
  obtain ⟨m2, hm2, hs2⟩ := h2.2.2.2 j hj m hm
  exact ⟨m2, hm2, hs2.trans hs⟩

theorem create_node_tree_ext (t : Tree) (i : Nat) (pos : Vec3) (rad : ℚ)
    (pn : Node) (hp : t[i]? = some pn) (hc : pn.m_children.length ≤ 1)
    (hco : tchildren_ok t) (hpo : tparents_ok t) :
    tree_ext t (t.set i { pn with m_children := pn.m_children ++ [t.length] }
      ++ [⟨pos, rad, some i, []⟩]) i := by
  refine ⟨by simp, create_node_tchildren t i pos rad pn hp hc hco,
    create_node_tparents t i pos rad pn hp hc hpo, ?_⟩
  intro j hj n hn
  have hjlen : j < t.length := getElem?_some_lt _ _ _ hn
  refine ⟨n, ?_, rfl⟩
  rw [set_append_getElem? t i _ _ (getElem?_some_lt _ _ _ hp) j,
    if_neg hj, if_neg (by omega)]
  exact hn

theorem to_root_tree_ext (fn : Tree → Node → Node)
    (hfn : ∀ t n, node_shape (fn t n) = node_shape n)
    (fuel : Nat) (t : Tree) (i i2 : Nat)
    (hco : tchildren_ok t) (hpo : tparents_ok t) :
    tree_ext t (Tree.to_root fn fuel t i2) i := by
  refine ⟨by rw [to_root_length], 
    tchildren_ok_of_shape t _ (to_root_shape_lookup fn hfn fuel t i2) hco,
    tparents_ok_of_shape t _ (to_root_length fn fuel t i2)
      (to_root_shape_lookup fn hfn fuel t i2) hpo, ?_⟩
  intro j hj n hn
  have hs := to_root_shape_lookup fn hfn fuel t i2 j
  rw [hn] at hs
  exact map_shape_some _ _ hs

theorem forest_set_ok (f : Forest) (k : Nat) (t t2 : Tree) (i : Nat)
    (hft : f[k]? = some t) (hext : tree_ext t t2 i)
    (hco : children_ok f) (hpo : parents_ok f) :
    children_ok (f.set k t2) ∧ parents_ok (f.set k t2) ∧
    (∀ r2 : NodeRef, r2 ≠ (k, i) → ∀ n2, f.get_node? r2 = some n2 →
      ∃ n3, Forest.get_node? (f.set k t2) r2 = some n3 ∧ node_shape n3 = node_shape n2) := by
  have hklen : k < f.length := getElem?_some_lt _ _ _ hft
  refine ⟨?_, ?_, ?_⟩
  · intro t3 ht3
    obtain ⟨j, hj⟩ := List.mem_iff_getElem?.mp ht3
    rw [List.getElem?_set] at hj
    by_cases hjk : k = j
    · rw [if_pos hjk, if_pos (by omega)] at hj
      obtain rfl := Option.some.inj hj
      exact hext.2.1
    · rw [if_neg hjk] at hj
      have hm : t3 ∈ f := List.mem_iff_getElem?.mpr ⟨j, hj⟩
      exact hco t3 hm
  · intro t3 ht3
    obtain ⟨j, hj⟩ := List.mem_iff_getElem?.mp ht3
    rw [List.getElem?_set] at hj
    by_cases hjk : k = j
    · rw [if_pos hjk, if_pos (by omega)] at hj
      obtain rfl := Option.some.inj hj
      exact hext.2.2.1
    · rw [if_neg hjk] at hj
      have hm : t3 ∈ f := List.mem_iff_getElem?.mpr ⟨j, hj⟩
      exact hpo t3 hm
  · intro r2 hr2 n2 hn2
    unfold Forest.get_node? at hn2 ⊢
    rw [List.getElem?_set]
    by_cases hak : k = r2.1
    · rw [if_pos hak, if_pos (by omega)]
      rw [← hak] at hn2
      rw [hft] at hn2
      have hbi : r2.2 ≠ i := by
        intro hb
        apply hr2
        have : r2 = (r2.1, r2.2) := rfl
        rw [this, ← hak, hb]
      exact hext.2.2.2 r2.2 hbi n2 hn2
    · rw [if_neg hak]
      cases hf2 : f[r2.1]? with
      | none => rw [hf2] at hn2; exact absurd hn2 (by simp)
      | some t4 =>
        rw [hf2] at hn2
        exact ⟨n2, hn2, rfl⟩


theorem bias_and_bif_root (geom : Geom) (sett : SettingsSystem) (t : Tree)
    (node : Node) (h : node.m_parent = none) (dir0 : Vec3) (attr_list : List Vec3) :
    bias_and_bif geom sett t node dir0 attr_list = some (false, dir0) := by
  unfold bias_and_bif
  rw [h]

theorem bias_and_bif_ne_none (geom : Geom) (sett : SettingsSystem) (t : Tree)
    (node : Node) (dir0 : Vec3) (attr_list : List Vec3)
    (h : ∀ pid, node.m_parent = some pid → pid < t.length) :
    bias_and_bif geom sett t node dir0 attr_list ≠ none := by
  unfold bias_and_bif
  cases hpn : node.m_parent with
  | none => simp
  | some pid =>
    obtain ⟨par, hpar⟩ := lt_getElem?_some t pid (h pid hpn)
    simp [hpar]

theorem create_node_ext_of_eq (t t1 : Tree) (i nid : Nat) (pos : Vec3) (rad : ℚ)
    (node : Node) (hget : t[i]? = some node) (hle : node.m_children.length ≤ 1)
    (hcot : tchildren_ok t) (hpot : tparents_ok t)
    (heq : t.create_node i pos rad = some (t1, nid)) :
    tree_ext t t1 i ∧
      ∃ node1, t1[i]? = some node1 ∧
        node1.m_children.length = node.m_children.length + 1 := by
  rw [create_node_eq t i pos rad node hget hle] at heq
  simp only [Option.some.injEq, Prod.mk.injEq] at heq
  obtain ⟨h1, -⟩ := heq
  subst h1
  constructor
  · exact create_node_tree_ext t i pos rad node hget hle hcot hpot
  · refine ⟨{ node with m_children := node.m_children ++ [t.length] }, ?_, ?_⟩
    · rw [set_append_getElem? t i _ _ (getElem?_some_lt _ _ _ hget) i, if_pos rfl]
    · simp

theorem grow_sprout_ok (geom : Geom) (sett : SettingsSystem) (params : ParameterSystem)
    (data : SystemData) (r : NodeRef) (t : Tree) (node : Node) (dir : Vec3)
    (hft : data.m_forest[r.1]? = some t) (hget : t[r.2]? = some node)
    (hle : node.m_children.length ≤ 1)
    (hco : children_ok data.m_forest) (hpo : parents_ok data.m_forest) :
    grown_ok data r (grow_sprout geom sett params data r t node dir) := by
  have htmem : t ∈ data.m_forest := List.mem_iff_getElem?.mpr ⟨r.1, hft⟩
  have hcot := hco t htmem
  have hpot := hpo t htmem
  unfold grow_sprout
  split
  · split
    · exact ⟨data, rfl, hco, hpo, fun r2 _ n2 hn2 => ⟨n2, hn2, rfl⟩⟩
    · simp only []
      split
      · next heq =>
        rw [create_node_eq t r.2 _ _ node hget hle] at heq
        exact absurd heq (by simp)
      · next t1 id_e heq =>
        obtain ⟨e1, -⟩ :=
          create_node_ext_of_eq t t1 r.2 id_e _ _ node hget hle hcot hpot heq
        have e2 := to_root_tree_ext _ (recalc_radii_shape geom sett)
          t1.length t1 r.2 r.2 e1.2.1 e1.2.2.1
        obtain ⟨hc2, hp2, hpres⟩ := forest_set_ok data.m_forest r.1 t _ r.2 hft
          (tree_ext_trans _ _ _ _ e1 e2) hco hpo
        exact ⟨_, rfl, hc2, hp2, hpres⟩
  · exact ⟨data, rfl, hco, hpo, fun r2 _ n2 hn2 => ⟨n2, hn2, rfl⟩⟩

theorem grow_bif_ok (geom : Geom) (sett : SettingsSystem) (params : ParameterSystem)
    (data : SystemData) (r : NodeRef) (t : Tree) (node : Node)
    (attr_list : List Vec3) (pid : Nat) (par : Node)
    (hft : data.m_forest[r.1]? = some t) (hget : t[r.2]? = some node)
    (hleaf : node.is_leaf = true)
    (hpn : node.m_parent = some pid) (hpar : t[pid]? = some par)
    (hco : children_ok data.m_forest) (hpo : parents_ok data.m_forest) :
    grown_ok data r (grow_bif geom sett params data r t node attr_list) := by
  have htmem : t ∈ data.m_forest := List.mem_iff_getElem?.mpr ⟨r.1, hft⟩
  have hcot := hco t htmem
  have hpot := hpo t htmem
  have hch : node.m_children = [] := by
    unfold Node.is_leaf at hleaf
    exact List.isEmpty_iff.mp hleaf
  have hle0 : node.m_children.length ≤ 1 := by rw [hch]; simp
  unfold grow_bif
  simp only [hpn, hpar]
  split
  · next heq =>
    rw [create_node_eq t r.2 _ _ node hget hle0] at heq
    exact absurd heq (by simp)
  · next t1 id_l heq =>
    obtain ⟨e1, node1, hn1get, hn1len⟩ :=
      create_node_ext_of_eq t t1 r.2 id_l _ _ node hget hle0 hcot hpot heq
    have hle1 : node1.m_children.length ≤ 1 := by rw [hn1len, hch]; simp
    split
    · next heq2 =>
      rw [create_node_eq t1 r.2 _ _ node1 hn1get hle1] at heq2
      exact absurd heq2 (by simp)
    · next t2 id_r heq2 =>
      obtain ⟨e2, -⟩ :=
        create_node_ext_of_eq t1 t2 r.2 id_r _ _ node1 hn1get hle1
          e1.2.1 e1.2.2.1 heq2
      have e3 := to_root_tree_ext _ (recalc_radii_shape geom sett)
        t2.length t2 r.2 r.2 e2.2.1 e2.2.2.1
      obtain ⟨hc2, hp2, hpres⟩ := forest_set_ok data.m_forest r.1 t _ r.2 hft
        (tree_ext_trans _ _ _ _ (tree_ext_trans _ _ _ _ e1 e2) e3) hco hpo
      exact ⟨_, rfl, hc2, hp2, hpres⟩

theorem grow_one_ok (geom : Geom) (sett : SettingsSystem) (params : ParameterSystem)
    (data : SystemData) (r : NodeRef) (attr_list : List Vec3)
    (hco : children_ok data.m_forest) (hpo : parents_ok data.m_forest)
    (hkey : key_ok data.m_forest r) :
    grown_ok data r (grow_one geom sett params data r attr_list) := by
  obtain ⟨node, hget0, hle⟩ := hkey
  unfold Forest.get_node? at hget0
  cases hft : data.m_forest[r.1]? with
  | none =>
    simp only [hft] at hget0
    exact Option.noConfusion hget0
  | some t =>
    simp only [hft] at hget0
    have htmem : t ∈ data.m_forest := List.mem_iff_getElem?.mpr ⟨r.1, hft⟩
    have hpot := hpo t htmem
    have hnmem : node ∈ t := List.mem_iff_getElem?.mpr ⟨r.2, hget0⟩
    have hpv : ∀ pid, node.m_parent = some pid → pid < t.length := by
      intro pid hpid
      exact hpot node hnmem pid (by rw [hpid]; rfl)
    unfold grow_one
    simp only [hft, hget0]
    split
    · next hbb => exact absurd hbb (bias_and_bif_ne_none geom sett t node _ attr_list hpv)
    · next b dir hbb =>
      split
      · next hguard =>
        rw [Bool.and_eq_true] at hguard
        cases hpn : node.m_parent with
        | none =>
          rw [bias_and_bif_root geom sett t node hpn] at hbb
          obtain ⟨h1, -⟩ := Prod.mk.injEq .. |>.mp (Option.some.inj hbb)
          rw [← h1] at hguard
          simp at hguard
        | some pid =>
          obtain ⟨par, hpar⟩ := lt_getElem?_some t pid (hpv pid hpn)
          exact grow_bif_ok geom sett params data r t node attr_list pid par
            hft hget0 hguard.1 hpn hpar hco hpo
      · next hguard =>
        exact grow_sprout_ok geom sett params data r t node dir hft hget0 hle hco hpo


theorem step_growth_ok (geom : Geom) (sett : SettingsSystem)
    (params : ParameterSystem) :
    ∀ (m : List (NodeRef × List Vec3)) (data : SystemData),
      children_ok data.m_forest → parents_ok data.m_forest →
      (∀ e ∈ m, key_ok data.m_forest e.1) →
      (m.map Prod.fst).Nodup →
      ∃ d2, step_growth geom sett params data m = some d2 ∧
        children_ok d2.m_forest ∧ parents_ok d2.m_forest := by
  intro m
  induction m with
  | nil =>
    intro data hco hpo _ _
    exact ⟨data, rfl, hco, hpo⟩
  | cons e rest ih =>
    intro data hco hpo hkeys hnd
    obtain ⟨d1, hd1, hc1, hp1, hpres⟩ :=
      grow_one_ok geom sett params data e.1 e.2 hco hpo (hkeys e (by simp))
    have hnd0 : (e.1 ∉ rest.map Prod.fst) ∧ (rest.map Prod.fst).Nodup := by
      rw [List.map_cons] at hnd
      exact List.nodup_cons.mp hnd
    have hkeys2 : ∀ e2 ∈ rest, key_ok d1.m_forest e2.1 := by
      intro e2 he2
      obtain ⟨n2, hn2, hlen2⟩ := hkeys e2 (by simp [he2])
      have hne : e2.1 ≠ e.1 := by
        intro hcontra
        exact hnd0.1 (hcontra ▸ List.mem_map_of_mem Prod.fst he2)
      obtain ⟨n3, hn3, hs3⟩ := hpres e2.1 hne n2 hn2
      refine ⟨n3, hn3, ?_⟩
      have hch : n3.m_children = n2.m_children :=
        congrArg (fun q => q.2.2) hs3
      rw [hch]
      exact hlen2
    obtain ⟨d2, hd2, hc2, hp2⟩ := ih d1 hc1 hp1 hkeys2 hnd0.2
    refine ⟨d2, ?_, hc2, hp2⟩
    unfold step_growth at hd2 ⊢
    rw [List.foldlM_cons, hd1]
    simpa using hd2

theorem find_min_step_spec (f : Forest) (p : Vec3) (best : Option (NodeRef × ℚ))
    (r : NodeRef)
    (hbest : ∀ r0 d0, best = some (r0, d0) → nonjoint_key f r0) :
    ∀ r1 d1, find_min_step f p best r = some (r1, d1) → nonjoint_key f r1 := by
  intro r1 d1 h
  unfold find_min_step at h
  cases hg : Forest.get_node? f r with
  | none =>
    simp only [hg] at h
    exact hbest r1 d1 h
  | some n =>
    simp only [hg] at h
    by_cases hj : n.is_joint = true
    · rw [if_pos hj] at h
      exact hbest r1 d1 h
    · rw [if_neg hj] at h
      cases best with
      | none =>
        obtain ⟨h1, -⟩ := Prod.mk.injEq .. |>.mp (Option.some.inj h)
        exact ⟨n, h1 ▸ hg, Bool.not_eq_true _ ▸ hj⟩
      | some bd =>
        obtain ⟨br, bd2⟩ := bd
        simp only [] at h
        split at h
        · obtain ⟨h1, -⟩ := Prod.mk.injEq .. |>.mp (Option.some.inj h)
          exact ⟨n, h1 ▸ hg, Bool.not_eq_true _ ▸ hj⟩
        · exact hbest r1 d1 h

theorem find_min_fold_spec (f : Forest) (p : Vec3) :
    ∀ (nodes : List NodeRef) (acc : Option (NodeRef × ℚ)),
      (∀ r0 d0, acc = some (r0, d0) → nonjoint_key f r0) →
      ∀ r1 d1, nodes.foldl (find_min_step f p) acc = some (r1, d1) →
        nonjoint_key f r1 := by
  intro nodes
  induction nodes with
  | nil => intro acc hacc r1 d1 h; exact hacc r1 d1 h
  | cons r rest ih =>
    intro acc hacc r1 d1 h
    rw [List.foldl_cons] at h
    exact ih (find_min_step f p acc r) (find_min_step_spec f p acc r hacc) r1 d1 h

theorem find_min_spec (f : Forest) (p : Vec3) (nodes : List NodeRef) (r : NodeRef)
    (h : find_min f p nodes = some r) : nonjoint_key f r := by
  unfold find_min at h
  obtain ⟨⟨r0, d0⟩, hfold, hr⟩ := Option.map_eq_some'.mp h
  obtain rfl := hr
  exact find_min_fold_spec f p nodes none (by intro r0 d0 h0; exact Option.noConfusion h0)
    r0 d0 hfold

theorem push_attr_prop (Q : NodeRef → Prop) :
    ∀ (m : List (NodeRef × List Vec3)) (r : NodeRef) (p : Vec3),
      (∀ e ∈ m, Q e.1) → Q r → ∀ e ∈ push_attr m r p, Q e.1 := by
  intro m
  induction m with
  | nil =>
    intro r p _ hr e he
    unfold push_attr at he
    obtain rfl := List.mem_singleton.mp he
    exact hr
  | cons e0 rest ih =>
    intro r p hm hr e he
    unfold push_attr at he
    by_cases h0 : e0.1 = r
    · rw [if_pos h0] at he
      cases List.mem_cons.mp he with
      | inl h1 => rw [h1]; exact hm e0 (by simp)
      | inr h1 => exact hm e (by simp [h1])
    · rw [if_neg h0] at he
      cases List.mem_cons.mp he with
      | inl h1 => rw [h1]; exact hm e0 (by simp)
      | inr h1 =>
        exact ih r p (fun e2 he2 => hm e2 (by simp [he2])) hr e h1

theorem push_attr_keys (r : NodeRef) (p : Vec3) :
    ∀ m : List (NodeRef × List Vec3),
      (push_attr m r p).map Prod.fst =
        if r ∈ m.map Prod.fst then m.map Prod.fst else m.map Prod.fst ++ [r] := by
  intro m
  induction m with
  | nil => simp [push_attr]
  | cons e0 rest ih =>
    unfold push_attr
    by_cases h0 : e0.1 = r
    · rw [if_pos h0]
      simp [h0.symm]
    · rw [if_neg h0]
      rw [List.map_cons, List.map_cons, ih]
      by_cases hr : r ∈ rest.map Prod.fst
      · rw [if_pos hr, if_pos (by simp [hr])]
      · rw [if_neg hr, if_neg (by
          intro hmem
          cases List.mem_cons.mp hmem with
          | inl h1 => exact h0 h1.symm
          | inr h1 => exact hr h1)]
        simp

theorem push_attr_nodup (m : List (NodeRef × List Vec3)) (r : NodeRef) (p : Vec3)
    (h : (m.map Prod.fst).Nodup) : ((push_attr m r p).map Prod.fst).Nodup := by
  rw [push_attr_keys]
  by_cases hr : r ∈ m.map Prod.fst
  · rw [if_pos hr]
    exact h
  · rw [if_neg hr]
    simp [List.nodup_append, h, hr]

theorem closest_step_spec (geom : Geom) (sett : SettingsSystem)
    (params : ParameterSystem) (data : SystemData)
    (m : List (NodeRef × List Vec3)) (p : Vec3)
    (h1 : ∀ e ∈ m, nonjoint_key data.m_forest e.1)
    (h2 : (m.map Prod.fst).Nodup) :
    (∀ e ∈ closest_step geom sett params data m p, nonjoint_key data.m_forest e.1) ∧
    ((closest_step geom sett params data m p).map Prod.fst).Nodup := by
  unfold closest_step
  simp only []
  split
  · exact ⟨h1, h2⟩
  · split
    · exact ⟨h1, h2⟩
    · next r hfm =>
      split
      · next t n hft hn =>
        split
        · exact ⟨push_attr_prop _ m r p h1 (find_min_spec data.m_forest p _ r hfm),
            push_attr_nodup m r p h2⟩
        · exact ⟨h1, h2⟩
      · exact ⟨h1, h2⟩

theorem step_closest_spec (geom : Geom) (sett : SettingsSystem)
    (params : ParameterSystem) (data : SystemData) :
    (∀ e ∈ step_closest geom sett params data, nonjoint_key data.m_forest e.1) ∧
    ((step_closest geom sett params data).map Prod.fst).Nodup := by
  unfold step_closest
  suffices h : ∀ (l : List Vec3) (m : List (NodeRef × List Vec3)),
      (∀ e ∈ m, nonjoint_key data.m_forest e.1) → (m.map Prod.fst).Nodup →
      (∀ e ∈ l.foldl (closest_step geom sett params data) m,
        nonjoint_key data.m_forest e.1) ∧
      ((l.foldl (closest_step geom sett params data) m).map Prod.fst).Nodup by
    exact h data.m_attr_search [] (by intro e he; exact absurd he (List.not_mem_nil e))
      (by simp)
  intro l
  induction l with
  | nil => intro m g1 g2; exact ⟨g1, g2⟩
  | cons p rest ih =>
    intro m g1 g2
    rw [List.foldl_cons]
    obtain ⟨k1, k2⟩ := closest_step_spec geom sett params data m p g1 g2
    exact ih _ k1 k2


/-- Claim C5: starting from a forest in which every node has at most two
children and all parent handles resolve, the association map built by
step_closest only carries resolvable non joint keys, each key at most
once; and for every such map, step_growth succeeds (in this embedding
create_node returns none exactly when its parent already has two children,
so success means the engine never requests a third child) and every node
of the resulting forest again has at most two children. -/
theorem c5_growth_invariant (geom : Geom) (sett : SettingsSystem)
    (params : ParameterSystem) (data : SystemData)
    (hco : children_ok data.m_forest) (hpo : parents_ok data.m_forest) :
    ((∀ e ∈ step_closest geom sett params data, nonjoint_key data.m_forest e.1) ∧
      ((step_closest geom sett params data).map Prod.fst).Nodup) ∧
    (∀ m : List (NodeRef × List Vec3),
      (∀ e ∈ m, nonjoint_key data.m_forest e.1) → (m.map Prod.fst).Nodup →
      ∃ d2, step_growth geom sett params data m = some d2 ∧
        children_ok d2.m_forest ∧ parents_ok d2.m_forest) := by
  refine ⟨step_closest_spec geom sett params data, ?_⟩
  intro m hm hnd
  have hkeys : ∀ e ∈ m, key_ok data.m_forest e.1 := by
    intro e he
    obtain ⟨n, hn, hj⟩ := hm e he
    refine ⟨n, hn, ?_⟩
    have hle2 : n.m_children.length ≤ 2 := by
      unfold Forest.get_node? at hn
      cases hft : data.m_forest[e.1.1]? with
      | none =>
        simp only [hft] at hn
        exact Option.noConfusion hn
      | some t =>
        simp only [hft] at hn
        have htm : t ∈ data.m_forest := List.mem_iff_getElem?.mpr ⟨e.1.1, hft⟩
        have hnm : n ∈ t := List.mem_iff_getElem?.mpr ⟨e.1.2, hn⟩
        exact hco t htm n hnm
    have hne2 : n.m_children.length ≠ 2 := by
      unfold Node.is_joint at hj
      simpa using hj
    omega
  exact step_growth_ok geom sett params m data hco hpo hkeys hnd

/-- Claim C5 witness: growth on a single root system with one associated
attraction point succeeds and preserves the child count invariant. -/
theorem c5_growth_invariant_witness :
    ∃ d2, step_growth triv_geom sett0 param0 d_one_root
        [(((0 : Nat), (0 : Nat)), [⟨0, 0, 2⟩])] = some d2 ∧
      children_ok d2.m_forest ∧ parents_ok d2.m_forest :=
  (c5_growth_invariant triv_geom sett0 param0 d_one_root
    (by unfold children_ok tchildren_ok d_one_root; decide)
    (by unfold parents_ok tparents_ok d_one_root; decide)).2
    [(((0 : Nat), (0 : Nat)), [⟨0, 0, 2⟩])]
    (by
      intro e he
      obtain rfl := List.mem_singleton.mp he
      exact ⟨⟨⟨0, 0, 0⟩, 1, none, []⟩, rfl, rfl⟩)
    (by simp)


end VS
